import Mathlib

/-!
Verification development for the spectral detection engine of the
`finderminer` repository (`src/signal_processor.py`).

The Python code is shallowly embedded: power values and frequencies are
modelled as rationals (`ℚ`), sample blocks for the spectral-transform
claims as complex-valued functions, and the processing loop as explicit
state passing over a list of read results.  The scipy routines the code
calls (`scipy.signal.find_peaks` with `height` and `distance`) are
translated from the scipy implementation itself (`_local_maxima_1d`,
`_select_by_property`, `_select_by_peak_distance`).
-/

namespace FinderMiner

/-! ## numpy frequency-axis helpers (`np.fft.fftfreq`, `np.fft.fftshift`)

`_compute_fft` (signal_processor.py lines 91–107) applies
`np.fft.fftshift` to the FFT output before computing the dB power, but
returns `np.fft.fftfreq(len(samples), 1/sample_rate)` unshifted as the
frequency axis. -/

/-- Value at index `i` of `np.fft.fftfreq n (1/rate)`, i.e. of
`[0, 1, …, ⌈n/2⌉-1, -⌊n/2⌋, …, -1] * rate / n`. -/
def fftfreqVal (n : ℕ) (rate : ℚ) (i : ℕ) : ℚ :=
  (if i < (n + 1) / 2 then (i : ℚ) else (i : ℚ) - (n : ℚ)) * rate / (n : ℚ)

/-- The full frequency list `np.fft.fftfreq(n, 1/rate)`. -/
def fftfreqList (n : ℕ) (rate : ℚ) : List ℚ :=
  (List.range n).map (fftfreqVal n rate)

/-- Model of `np.fft.fftshift`, i.e. `np.roll(x, n // 2)`: element `x[j]`
moves to index `(j + n/2) % n`, which is a left rotation by `n - n/2`. -/
def fftshiftList {α : Type} (xs : List α) : List α :=
  xs.rotate (xs.length - xs.length / 2)

/-- Result of `SignalProcessor._compute_fft`, restricted to the index
bookkeeping the spectral claims are about: the code computes
`power = 20*log10(abs(fftshift(fft(windowed))))` — elementwise
operations commute with the shift permutation, so the power list is the
`fftshift` of the per-bin dB list `rawPower` — and pairs it with the
UNSHIFTED `np.fft.fftfreq` output as the frequency axis. -/
structure FFTResult where
  power : List ℚ
  frequencies : List ℚ
deriving DecidableEq

/-- Model of `SignalProcessor._compute_fft` (lines 91–107), index
bookkeeping: `power` is the center-shifted spectrum, `frequencies` is
raw `np.fft.fftfreq(len(samples), 1/sample_rate)` with no shift
applied. -/
def compute_fft (rawPower : List ℚ) (rate : ℚ) : FFTResult :=
  { power := fftshiftList rawPower
    frequencies := fftfreqList rawPower.length rate }

/-- Whether a list is monotonically non-decreasing (the ordering the
spec requires of the returned frequency axis). -/
def nonDecreasing : List ℚ → Bool
  | [] => true
  | [_] => true
  | a :: b :: rest => decide (a ≤ b) && nonDecreasing (b :: rest)

/-! ## `scipy.signal.find_peaks` (height and distance conditions)

`_analyze_signal` (lines 109–131) calls
`signal.find_peaks(power, height=threshold, distance=20)`.  The model
below follows the scipy `_peak_finding` internals: local maxima with
plateau midpoints (`_local_maxima_1d`), then the inclusive height
filter (`_select_by_property` keeps `hmin <= height`), then the
distance filter processing peaks in decreasing priority
(`_select_by_peak_distance`). -/

/-- Inner while loop of `_local_maxima_1d`: starting at `iAhead`, skip
indices below `iMax` whose sample equals the plateau value `v`.  The
Python while loop is modelled with an explicit iteration budget (first
`ℕ` argument); since `iAhead` grows by one per iteration and the loop
stops at `iMax ≤ x.length`, a budget of `x.length` can never be
exhausted, so the budgeted function agrees with the unbounded loop. -/
def findAhead (x : List ℚ) (iMax : ℕ) (v : ℚ) : ℕ → ℕ → ℕ
  | 0, iAhead => iAhead
  | fuel + 1, iAhead =>
    if iAhead < iMax ∧ x.getD iAhead 0 = v then findAhead x iMax v fuel (iAhead + 1)
    else iAhead

/-- Main loop of the scipy routine `_local_maxima_1d`: a sample strictly
above its left neighbour starts a (possibly one-sample) plateau; if the
first differing sample to the right is strictly smaller, the plateau
midpoint is recorded and scanning resumes past the plateau.  Endpoints
are never maxima.  As with `findAhead`, the while loop carries an
iteration budget that the caller sizes so it cannot run out (the index
`i` grows by at least one per iteration and the loop stops at
`iMax ≤ x.length - 1`). -/
def lmGo (x : List ℚ) (iMax : ℕ) : ℕ → ℕ → List ℕ
  | 0, _ => []
  | fuel + 1, i =>
    if i < iMax then
      if x.getD (i - 1) 0 < x.getD i 0 then
        let iA := findAhead x iMax (x.getD i 0) x.length (i + 1)
        if x.getD iA 0 < x.getD i 0 then
          (i + (iA - 1)) / 2 :: lmGo x iMax fuel (iA + 1)
        else lmGo x iMax fuel (i + 1)
      else lmGo x iMax fuel (i + 1)
    else []

/-- The scipy routine `_local_maxima_1d x`: indices of interior local
maxima (plateau midpoints), in increasing order. -/
def localMaxima (x : List ℚ) : List ℕ :=
  lmGo x (x.length - 1) x.length 1

/-- Candidate peaks after the height filter: the scipy filter
`_select_by_property` with `hmin = threshold` keeps a peak when
`threshold <= x[peak]` (inclusive comparison). -/
def candidates (x : List ℚ) (threshold : ℚ) : List ℕ :=
  (localMaxima x).filter (fun p => threshold ≤ x.getD p 0)

/-- Stable insertion (ascending by priority, a later element goes after
equal ones), modelling the order `np.argsort` produces on the priority
arrays arising here. -/
def insertStable (p : ℕ × ℚ) : List (ℕ × ℚ) → List (ℕ × ℚ)
  | [] => [p]
  | q :: qs => if p.2 < q.2 then p :: q :: qs else q :: insertStable p qs

/-- Model of `np.argsort priorities`: positions sorted by ascending
priority. -/
def argsortStable (pr : List ℚ) : List ℕ :=
  ((pr.enum).foldl (fun acc q => insertStable q acc) []).map Prod.fst

/-- One step of `_select_by_peak_distance`: if position `j` is still
kept, flag every other position whose peak index lies strictly within
`d` bins of peak `j` as removed.  (scipy walks left and right with
`while` loops; on the sorted peak lists produced by `localMaxima` that
is the same set.) -/
def killAround (ps : List ℕ) (d j : ℕ) (keep : List Bool) : List Bool :=
  if keep.getD j false then
    (List.range ps.length).foldl
      (fun kp k =>
        if k ≠ j ∧
            max (ps.getD k 0) (ps.getD j 0) - min (ps.getD k 0) (ps.getD j 0) < d
        then kp.set k false else kp)
      keep
  else keep

/-- The scipy routine `_select_by_peak_distance`: process positions in decreasing
priority; each surviving peak removes all others within `d` bins. -/
def selectByPeakDistance (ps : List ℕ) (pr : List ℚ) (d : ℕ) : List Bool :=
  ((argsortStable pr).reverse).foldl
    (fun kp j => killAround ps d j kp)
    (List.replicate ps.length true)

/-- Model of `scipy.signal.find_peaks(x, height=threshold, distance=d)`:
local maxima, then the inclusive height filter, then distance-based
suppression by descending peak height. -/
def find_peaks (x : List ℚ) (threshold : ℚ) (d : ℕ) : List ℕ :=
  let ps := candidates x threshold
  let keep := selectByPeakDistance ps (ps.map (fun p => x.getD p 0)) d
  (ps.zip keep).filterMap (fun q => if q.2 then some q.1 else none)

/-! ## Confidence and detection (`_calculate_confidence`, `_analyze_signal`) -/

/-- Model of `np.mean` for a list of rationals (sum divided by length; the code
only applies it to nonempty peak lists). -/
def npMean (pp : List ℚ) : ℚ :=
  pp.sum / (pp.length : ℚ)

/-- Model of `SignalProcessor._calculate_confidence` (lines 133–142):
`confidence = (avg_power - threshold) / abs(threshold)` clamped by
the Python expression `min(max(confidence, 0), 1)`. -/
def calculate_confidence (peak_powers : List ℚ) (threshold : ℚ) : ℚ :=
  min (max ((npMean peak_powers - threshold) / |threshold|) 0) 1

/-- The detection record built by `_analyze_signal`: timestamps are
irrelevant to the claims and omitted. -/
structure Detection where
  frequencies : List ℚ
  powers : List ℚ
  confidence : ℚ
deriving DecidableEq

/-- Model of `SignalProcessor._analyze_signal` (lines 109–131): find peaks above
the configured threshold with hard-coded `distance=20`; when any peak
is found, build a detection record, append it to `detected_signals`
and return it, otherwise return `None` and leave the store alone. -/
def analyze_signal (power freqs : List ℚ) (threshold : ℚ)
    (store : List Detection) : Option Detection × List Detection :=
  let peaks := find_peaks power threshold 20
  if peaks.length > 0 then
    let d : Detection :=
      { frequencies := peaks.map (fun p => freqs.getD p 0)
        powers := peaks.map (fun p => power.getD p 0)
        confidence := calculate_confidence (peaks.map (fun p => power.getD p 0)) threshold }
    (some d, store ++ [d])
  else (none, store)

/-! ## The processing loop (`_processing_loop`)

Each iteration reads one sample block (which may raise), computes the
FFT, analyzes it, and invokes the registered callback on a detection
(the callback may raise).  Any exception is caught by the except
clause of the loop, logged, and ends the loop (`self.running = False;
break`).  A block is modelled by the `(power, frequencies)` pair its
FFT produces; a failing read by `ReadResult.err`. -/

inductive ReadResult where
  | ok (power freqs : List ℚ)
  | err
deriving DecidableEq

/-- The loop-visible state: the detection store (`detected_signals`),
the list of successful callback invocations in order, the `running`
flag, and a count of errors logged by the `except` clause. -/
structure LoopState where
  store : List Detection
  calls : List Detection
  running : Bool
  errors : ℕ
deriving DecidableEq

/-- One iteration of `_processing_loop` (lines 72–89).  A read error
raises before analysis; a detection is appended to the store inside
`_analyze_signal` before the callback runs, so a callback that raises
(`sinkFails d = true`) still leaves the detection in the store, but is
caught by the `except` clause which clears `running` and breaks. -/
def loop_step (threshold : ℚ) (sinkFails : Detection → Bool)
    (st : LoopState) (r : ReadResult) : LoopState :=
  if st.running then
    match r with
    | .err => { st with running := false, errors := st.errors + 1 }
    | .ok power freqs =>
      match analyze_signal power freqs threshold st.store with
      | (none, store') => { st with store := store' }
      | (some d, store') =>
        if sinkFails d then
          { st with store := store', running := false, errors := st.errors + 1 }
        else
          { st with store := store', calls := st.calls ++ [d] }
  else st

/-- Model of `_processing_loop` over a finite supply of read results: the
`while self.running` loop makes every iteration after `running` is
cleared a no-op. -/
def processing_loop (threshold : ℚ) (sinkFails : Detection → Bool)
    (blocks : List ReadResult) (st : LoopState) : LoopState :=
  blocks.foldl (loop_step threshold sinkFails) st

/-! ## Engine lifecycle (`start_processing`, `stop_processing`) -/

/-- A sample source handle: block index ↦ the `(power, frequencies)`
pair its samples produce.  `SignalProcessor.sdr` is `Option SdrHandle`;
it is `none` until `initialize_sdr` succeeds. -/
def SdrHandle : Type := ℕ → List ℚ × List ℚ

/-- Reading a block, `self.sdr.read_samples(...)` followed by `_compute_fft`: with no
device handle the attribute access on `None` raises
(`ReadResult.err`). -/
def readBlock (sdr : Option SdrHandle) (i : ℕ) : ReadResult :=
  match sdr with
  | none => ReadResult.err
  | some h => ReadResult.ok (h i).1 (h i).2

/-- The engine fields the lifecycle claims are about.
`processing_thread` holds `some started` for a stored thread object
(`threading.Thread.start` has been called on every thread the engine
stores), `none` before any `start_processing` call. -/
structure Engine where
  running : Bool
  processing_thread : Option Bool
  sdr : Option SdrHandle
  detected_signals : List Detection

/-- Model of `threading.Thread.join`: it raises `RuntimeError` when called on a
thread that was never started; joining a finished thread returns
immediately. -/
def joinThread (started : Bool) : Except String Unit :=
  if started then Except.ok () else Except.error "cannot join thread before it is started"

/-- Model of `SignalProcessor.start_processing` (lines 49–59): refuse when
already running, otherwise set `running`, spawn and start the
processing thread, and report success — with no check that a sample
source was ever opened. -/
def start_processing (e : Engine) : Bool × Engine :=
  if e.running then (false, e)
  else (true, { e with running := true, processing_thread := some true })

/-- Model of `SignalProcessor.stop_processing` (lines 61–68): clear `running`,
join the stored thread if any (which can raise), then close and drop
the device handle if any. -/
def stop_processing (e : Engine) : Except String Engine :=
  let e1 : Engine := { e with running := false }
  match e1.processing_thread with
  | some st =>
    match joinThread st with
    | Except.ok _ =>
      match e1.sdr with
      | some _ => Except.ok { e1 with sdr := none }
      | none => Except.ok e1
    | Except.error msg => Except.error msg
  | none =>
    match e1.sdr with
    | some _ => Except.ok { e1 with sdr := none }
    | none => Except.ok e1

/-! ## The dB power computation of `_compute_fft` over ℝ

The line `power = 20 * np.log10(np.abs(fft))` applies the dB map to raw
bin magnitudes with no clamping.  numpy does not raise on a zero
magnitude: `np.log10(0.0)` evaluates to `-inf` (with a warning), so one
bin of the power spectrum is modelled as an extended real. -/

/-- The discrete Fourier transform (`np.fft.fft`) of `n` samples at
bin `k`. -/
noncomputable def dft (x : ℕ → ℂ) (n k : ℕ) : ℂ :=
  ∑ j ∈ Finset.range n,
    x j * Complex.exp (-2 * Real.pi * Complex.I * (j : ℂ) * (k : ℂ) / (n : ℂ))

/-- The map `m ↦ 20 * log10 m` as numpy computes it on a nonnegative
magnitude: `-inf` at zero (no exception, no epsilon clamp), finite
otherwise. -/
noncomputable def npPower (mag : ℝ) : EReal :=
  if mag = 0 then ⊥ else ((20 * Real.logb 10 mag : ℝ) : EReal)

/-- Power of bin `k` in `_compute_fft` (line 101): window the samples,
transform, take the bin magnitude and apply the dB map.  (`fftshift`
only permutes bins and is irrelevant to finiteness, so `k` indexes the
unshifted transform.) -/
noncomputable def compute_power (samples window : ℕ → ℂ) (n k : ℕ) : EReal :=
  npPower (Complex.abs (dft (fun j => samples j * window j) n k))

/-- Confidence formula exactly as the spec words it
(`clamp((mean(accepted powers) - threshold) / |threshold|, 0, 1)`),
stated on the mean `m`; used to compare the code formula against the
spec formula. -/
def specConfidenceClamp (m t : ℚ) : ℚ :=
  min 1 (max 0 ((m - t) / |t|))

/-! ## Helper lemmas -/

theorem getD_replicate_of_lt (n : ℕ) (t : ℚ) (i : ℕ) (h : i < n) :
    (List.replicate n t).getD i 0 = t := by
  induction n generalizing i with
  | zero => omega
  | succ m ih =>
    cases i with
    | zero => simp [List.replicate_succ]
    | succ j => simpa [List.replicate_succ] using ih j (by omega)

/-- On a constant spectrum no sample is strictly above its left
neighbour, so the scipy local-maximum scan records nothing. -/
theorem lmGo_replicate (n : ℕ) (t : ℚ) (fuel i : ℕ) :
    lmGo (List.replicate n t) (n - 1) fuel i = [] := by
  induction fuel generalizing i with
  | zero => rfl
  | succ f ih =>
    unfold lmGo
    by_cases h : i < n - 1
    · rw [if_pos h, getD_replicate_of_lt n t (i - 1) (by omega),
        getD_replicate_of_lt n t i (by omega), if_neg (lt_irrefl t)]
      exact ih (i + 1)
    · rw [if_neg h]

theorem localMaxima_replicate (n : ℕ) (t : ℚ) :
    localMaxima (List.replicate n t) = [] := by
  unfold localMaxima
  rw [List.length_replicate]
  exact lmGo_replicate n t n 1

/-- A completely flat spectrum yields no peaks, whatever the threshold. -/
theorem find_peaks_flat (n : ℕ) (t : ℚ) :
    find_peaks (List.replicate n t) t 20 = [] := by
  simp [find_peaks, candidates, localMaxima_replicate, selectByPeakDistance,
    argsortStable]

/-- Every reported peak passed the height filter, which is the
inclusive comparison `threshold ≤ power`. -/
theorem mem_find_peaks_height (x : List ℚ) (t : ℚ) (d p : ℕ)
    (hp : p ∈ find_peaks x t d) : t ≤ x.getD p 0 := by
  unfold find_peaks at hp
  simp only [List.mem_filterMap] at hp
  obtain ⟨⟨q, b⟩, hmem, hq⟩ := hp
  cases b with
  | false => simp at hq
  | true =>
    simp only [if_true] at hq
    have hqp : q = p := by simpa using hq
    subst hqp
    have hq1 : q ∈ candidates x t := (List.of_mem_zip hmem).1
    have h2 := List.of_mem_filter hq1
    simpa using h2

/-! ## Claim theorems -/

/-- C1: the claim states that the frequency axis returned by
`_compute_fft` is the standard FFT frequency-bin list permuted by the
same center-shift permutation applied to the power values, and is
monotonically non-decreasing.  The code returns raw `np.fft.fftfreq`
output while the power values are `fftshift`-permuted: at block length
4 and sample rate 4 the returned axis is `[0, 1, -2, -1]`, which is
neither the shifted bin list `[-2, -1, 0, 1]` nor non-decreasing, so
`power[i]` and `frequency[i]` describe different bins. -/
theorem C1_frequency_axis_not_shifted :
    (compute_fft [10, 20, 30, 40] 4).power = [30, 40, 10, 20] ∧
    (compute_fft [10, 20, 30, 40] 4).frequencies = [0, 1, -2, -1] ∧
    fftshiftList (fftfreqList 4 4) = [-2, -1, 0, 1] ∧
    (compute_fft [10, 20, 30, 40] 4).frequencies ≠ fftshiftList (fftfreqList 4 4) ∧
    nonDecreasing (compute_fft [10, 20, 30, 40] 4).frequencies = false := by
  with_unfolding_all decide

/-- C2 counterexample: the claim states a bin qualifies as a candidate
peak only if its power is strictly greater than the threshold.  On the
spectrum `[0, 5, 0]` with threshold `5`, bin 1 has power exactly equal
to the threshold yet is reported: the scipy height filter is
inclusive. -/
theorem C2_counterexample :
    1 ∈ find_peaks [0, 5, 0] 5 20 ∧
    ¬ (([0, 5, 0] : List ℚ).getD 1 0 > 5) := by
  with_unfolding_all decide

/-- C2 amended: a bin qualifies as a candidate peak only if its power
is at least the threshold (inclusive comparison `power[i] >= threshold`);
the flat-spectrum part of the claim still holds — a spectrum whose
power equals the threshold at every bin yields no detection — but
because a flat spectrum has no strict local maxima, not because of the
threshold comparison. -/
theorem C2_amended_inclusive_threshold :
    (∀ (x : List ℚ) (t : ℚ) (d p : ℕ), p ∈ find_peaks x t d → t ≤ x.getD p 0) ∧
    (∀ (n : ℕ) (t : ℚ), find_peaks (List.replicate n t) t 20 = []) :=
  ⟨mem_find_peaks_height, find_peaks_flat⟩

/-- Witness for C2 amended at a concrete input. -/
theorem C2_amended_witness : (3 : ℚ) ≤ ([0, 5, 0] : List ℚ).getD 1 0 :=
  C2_amended_inclusive_threshold.1 [0, 5, 0] 3 20 1 (by with_unfolding_all decide)

theorem argsort_two (h0 h1 : ℚ) :
    argsortStable [h0, h1] = if h1 < h0 then [1, 0] else [0, 1] := by
  unfold argsortStable
  have he : ([(0, h0), (1, h1)] : List (ℕ × ℚ)) = ([h0, h1] : List ℚ).enum := rfl
  rw [← he]
  show (insertStable (1, h1) (insertStable (0, h0) [])).map Prod.fst = _
  rw [show insertStable (0, h0) [] = [(0, h0)] from rfl]
  simp only [insertStable]
  by_cases h : h1 < h0
  · rw [if_pos h, if_pos h]; rfl
  · rw [if_neg h, if_neg h]; rfl

theorem killAround_two_j1 (p0 p1 : ℕ) (d : ℕ) (hlt : p0 < p1) (hd : p1 - p0 < d) :
    killAround [p0, p1] d 1 [true, true] = [false, true] := by
  unfold killAround
  rw [if_pos (show ([true, true] : List Bool).getD 1 false = true from rfl)]
  rw [show List.range ([p0, p1] : List ℕ).length = [0, 1] from rfl]
  have hc0 : ((0 : ℕ) ≠ 1 ∧ max (([p0, p1] : List ℕ).getD 0 0) (([p0, p1] : List ℕ).getD 1 0)
      - min (([p0, p1] : List ℕ).getD 0 0) (([p0, p1] : List ℕ).getD 1 0) < d) := by
    simp only [List.getD_cons_zero, List.getD_cons_succ]
    omega
  have hc1 : ¬ ((1 : ℕ) ≠ 1 ∧ max (([p0, p1] : List ℕ).getD 1 0) (([p0, p1] : List ℕ).getD 1 0)
      - min (([p0, p1] : List ℕ).getD 1 0) (([p0, p1] : List ℕ).getD 1 0) < d) := by
    simp
  simp only [List.foldl_cons, List.foldl_nil]
  rw [if_pos hc0, if_neg hc1]
  rfl

theorem killAround_two_j0 (p0 p1 : ℕ) (d : ℕ) (hlt : p0 < p1) (hd : p1 - p0 < d) :
    killAround [p0, p1] d 0 [true, true] = [true, false] := by
  unfold killAround
  rw [if_pos (show ([true, true] : List Bool).getD 0 false = true from rfl)]
  rw [show List.range ([p0, p1] : List ℕ).length = [0, 1] from rfl]
  have hc0 : ¬ ((0 : ℕ) ≠ 0 ∧ max (([p0, p1] : List ℕ).getD 0 0) (([p0, p1] : List ℕ).getD 0 0)
      - min (([p0, p1] : List ℕ).getD 0 0) (([p0, p1] : List ℕ).getD 0 0) < d) := by
    simp
  have hc1 : ((1 : ℕ) ≠ 0 ∧ max (([p0, p1] : List ℕ).getD 1 0) (([p0, p1] : List ℕ).getD 0 0)
      - min (([p0, p1] : List ℕ).getD 1 0) (([p0, p1] : List ℕ).getD 0 0) < d) := by
    simp only [List.getD_cons_zero, List.getD_cons_succ]
    omega
  simp only [List.foldl_cons, List.foldl_nil]
  rw [if_neg hc0, if_pos hc1]
  rfl

theorem killAround_dead (p0 p1 : ℕ) (d j : ℕ) (keep : List Bool)
    (h : keep.getD j false = false) : killAround [p0, p1] d j keep = keep := by
  unfold killAround
  rw [h]
  rfl

/-- The distance filter on exactly two candidate positions closer than
`d`: the higher-priority one survives; on equal priority the model of
`np.argsort` puts position 1 last, so it is processed first and
survives. -/
theorem select_two (p0 p1 : ℕ) (h0 h1 : ℚ) (d : ℕ) (hlt : p0 < p1) (hd : p1 - p0 < d) :
    selectByPeakDistance [p0, p1] [h0, h1] d =
      if h0 ≤ h1 then [false, true] else [true, false] := by
  unfold selectByPeakDistance
  rw [argsort_two]
  by_cases hc : h1 < h0
  · rw [if_pos hc, if_neg (not_le.mpr hc)]
    show List.foldl _ (List.replicate 2 true) [0, 1] = _
    simp only [List.foldl_cons, List.foldl_nil, List.replicate]
    rw [killAround_two_j0 p0 p1 d hlt hd]
    rw [killAround_dead p0 p1 d 1 [true, false] rfl]
  · rw [if_neg hc, if_pos (le_of_not_lt hc)]
    show List.foldl _ (List.replicate 2 true) [1, 0] = _
    simp only [List.foldl_cons, List.foldl_nil, List.replicate]
    rw [killAround_two_j1 p0 p1 d hlt hd]
    rw [killAround_dead p0 p1 d 0 [false, true] rfl]

/-- C3 counterexample: the claim states that on equal power the peak
with the LOWER bin index survives suppression.  On the spectrum
`[0, 5, 0, 5, 0]` with threshold 1 the candidates are bins 1 and 3 with
equal power and separation 2 < 20, yet the survivor is bin 3, the
higher index. -/
theorem C3_counterexample :
    candidates [0, 5, 0, 5, 0] 1 = [1, 3] ∧
    ([0, 5, 0, 5, 0] : List ℚ).getD 1 0 = ([0, 5, 0, 5, 0] : List ℚ).getD 3 0 ∧
    3 - 1 < 20 ∧
    find_peaks [0, 5, 0, 5, 0] 1 20 = [3] := by
  with_unfolding_all decide

/-- C3 amended: when a power spectrum has exactly two candidate peaks
whose bin indices differ by fewer bins than the minimum peak
separation, exactly one survives suppression: the one with higher
power, and on equal power the one with the HIGHER bin index (the
distance filter processes equal priorities from the last argsort
position backwards). -/
theorem C3_amended_suppression (x : List ℚ) (t : ℚ) (d p0 p1 : ℕ)
    (hc : candidates x t = [p0, p1]) (hlt : p0 < p1) (hd : p1 - p0 < d) :
    find_peaks x t d = if x.getD p0 0 ≤ x.getD p1 0 then [p1] else [p0] := by
  simp only [find_peaks]
  rw [hc]
  rw [show ([p0, p1].map (fun p => x.getD p 0)) = [x.getD p0 0, x.getD p1 0] from rfl]
  rw [select_two p0 p1 _ _ d hlt hd]
  by_cases hle : x.getD p0 0 ≤ x.getD p1 0
  · rw [if_pos hle, if_pos hle]; rfl
  · rw [if_neg hle, if_neg hle]; rfl

/-- Witness for C3 amended at a concrete input: two close candidates
with different powers collapse to the stronger one. -/
theorem C3_amended_witness :
    find_peaks [0, 5, 0, 4, 0] 1 20 =
      if ([0, 5, 0, 4, 0] : List ℚ).getD 1 0 ≤ ([0, 5, 0, 4, 0] : List ℚ).getD 3 0
      then [3] else [1] :=
  C3_amended_suppression [0, 5, 0, 4, 0] 1 20 1 3 (by with_unfolding_all decide)
    (by decide) (by decide)

theorem loop_step_not_running (threshold : ℚ) (sf : Detection → Bool)
    (st : LoopState) (r : ReadResult) (h : st.running = false) :
    loop_step threshold sf st r = st := by
  unfold loop_step
  rw [h]
  rfl

/-- Once the running flag is cleared the while loop performs no further
work: the remaining blocks are never read or analyzed. -/
theorem processing_loop_stopped (threshold : ℚ) (sf : Detection → Bool)
    (blocks : List ReadResult) (st : LoopState) (h : st.running = false) :
    processing_loop threshold sf blocks st = st := by
  induction blocks with
  | nil => rfl
  | cons b bs ih =>
    show processing_loop threshold sf bs (loop_step threshold sf st b) = st
    rw [loop_step_not_running threshold sf st b h]
    exact ih

/-- C4 amended: an error raised by the registered sink callback is
caught by the except clause of `_processing_loop` and logged, but it is
fatal to the run: the running flag is cleared, the loop breaks, and no
subsequent block is pulled or analyzed.  (The detection that triggered
the callback was already appended to the store before the callback
ran.) -/
theorem C4_amended_sink_error_fatal (threshold : ℚ) (sinkFails : Detection → Bool)
    (st : LoopState) (power freqs : List ℚ) (d : Detection) (rest : List ReadResult)
    (hrun : st.running = true)
    (hdet : analyze_signal power freqs threshold st.store = (some d, st.store ++ [d]))
    (hfail : sinkFails d = true) :
    processing_loop threshold sinkFails (ReadResult.ok power freqs :: rest) st =
      { st with store := st.store ++ [d], running := false, errors := st.errors + 1 } := by
  have hstep : loop_step threshold sinkFails st (ReadResult.ok power freqs) =
      { st with store := st.store ++ [d], running := false, errors := st.errors + 1 } := by
    unfold loop_step
    rw [hrun]
    dsimp only
    rw [hdet]
    dsimp only
    rw [hfail]
    rfl
  show processing_loop threshold sinkFails rest
    (loop_step threshold sinkFails st (ReadResult.ok power freqs)) = _
  rw [hstep]
  exact processing_loop_stopped _ _ _ _ rfl

/-- C4 counterexample: the claim states a sink failure never terminates
the loop and subsequent blocks keep being analyzed.  Running the loop
on two detecting blocks with a callback that raises: after the first
block the running flag is false and the store holds a single detection
— the second block was never analyzed. -/
theorem C4_counterexample :
    (processing_loop 1 (fun _ => true)
      [ReadResult.ok [0, 5, 0] [10, 20, 30], ReadResult.ok [0, 5, 0] [10, 20, 30]]
      ⟨[], [], true, 0⟩).running = false ∧
    (processing_loop 1 (fun _ => true)
      [ReadResult.ok [0, 5, 0] [10, 20, 30], ReadResult.ok [0, 5, 0] [10, 20, 30]]
      ⟨[], [], true, 0⟩).store.length = 1 := by
  with_unfolding_all decide

/-- Witness for C4 amended at a concrete input. -/
theorem C4_amended_witness :
    processing_loop 1 (fun _ => true)
      [ReadResult.ok [0, 5, 0] [10, 20, 30], ReadResult.ok [0, 5, 0] [10, 20, 30]]
      ⟨[], [], true, 0⟩ =
      ⟨[⟨[20], [5], 1⟩], [], false, 1⟩ :=
  C4_amended_sink_error_fatal 1 (fun _ => true) ⟨[], [], true, 0⟩ [0, 5, 0] [10, 20, 30]
    ⟨[20], [5], 1⟩ [ReadResult.ok [0, 5, 0] [10, 20, 30]] rfl
    (by with_unfolding_all decide) rfl

/-- C8: when zero candidate peaks survive (`find_peaks` returns the
empty list), `_analyze_signal` returns no detection and leaves the
store untouched, and the loop iteration changes nothing: nothing is
appended and the sink callback is not invoked for that pass. -/
theorem C8_no_peaks_no_detection (power freqs : List ℚ) (threshold : ℚ)
    (sf : Detection → Bool) (st : LoopState)
    (hp : find_peaks power threshold 20 = []) (hrun : st.running = true) :
    analyze_signal power freqs threshold st.store = (none, st.store) ∧
    loop_step threshold sf st (ReadResult.ok power freqs) = st := by
  obtain ⟨s1, c1, r1, e1⟩ := st
  replace hrun : r1 = true := hrun
  subst hrun
  have ha : analyze_signal power freqs threshold s1 = (none, s1) := by
    unfold analyze_signal
    rw [hp]
    rfl
  refine ⟨ha, ?_⟩
  unfold loop_step
  dsimp only
  rw [ha]
  rfl

/-- Witness for C8 at a concrete input: an all-zero spectrum below a
threshold of 5 yields no detection and an unchanged loop state. -/
theorem C8_witness :
    analyze_signal [0, 0, 0] [1, 2, 3] 5 [] = (none, []) ∧
    loop_step 5 (fun _ => false) ⟨[], [], true, 0⟩ (ReadResult.ok [0, 0, 0] [1, 2, 3]) =
      ⟨[], [], true, 0⟩ :=
  C8_no_peaks_no_detection [0, 0, 0] [1, 2, 3] 5 (fun _ => false) ⟨[], [], true, 0⟩
    (by with_unfolding_all decide) rfl

/-- C9: calling `stop_processing` on an idle engine (not running; the
stored thread, if any, was started) is a no-op that never raises: it
returns normally and leaves `detected_signals` unchanged. -/
theorem C9_stop_idle_noop (e : Engine) (hidle : e.running = false)
    (hthread : e.processing_thread = none ∨ e.processing_thread = some true) :
    ∃ e2, stop_processing e = Except.ok e2 ∧ e2.detected_signals = e.detected_signals := by
  obtain ⟨r, pt, sd, det⟩ := e
  replace hidle : r = false := hidle
  subst hidle
  rcases hthread with h | h
  · replace h : pt = none := h
    subst h
    cases sd with
    | none => exact ⟨_, rfl, rfl⟩
    | some s => exact ⟨_, rfl, rfl⟩
  · replace h : pt = some true := h
    subst h
    cases sd with
    | none => exact ⟨_, rfl, rfl⟩
    | some s => exact ⟨_, rfl, rfl⟩

/-- Witness for C9 on a freshly constructed engine. -/
theorem C9_witness :
    ∃ e2, stop_processing ⟨false, none, none, []⟩ = Except.ok e2 ∧
      e2.detected_signals = (⟨false, none, none, []⟩ : Engine).detected_signals :=
  C9_stop_idle_noop ⟨false, none, none, []⟩ rfl (Or.inl rfl)

/-- C10: `start_processing` succeeds (returns `True` and sets the
running flag) even when no sample source was ever opened (`sdr` is
`None`); the processing loop then raises on its first read attempt,
which clears the running flag and terminates the loop (one error is
logged, the store is untouched), without the start call having
reported any failure. -/
theorem C10_start_without_source (e : Engine) (hrun : e.running = false)
    (hsdr : e.sdr = none) (threshold : ℚ) (sf : Detection → Bool)
    (st : LoopState) (k : ℕ) (hk : 0 < k) (hst : st.running = true) :
    (start_processing e).1 = true ∧
    (start_processing e).2.running = true ∧
    processing_loop threshold sf ((List.range k).map (readBlock e.sdr)) st =
      { st with running := false, errors := st.errors + 1 } := by
  refine ⟨?_, ?_, ?_⟩
  · unfold start_processing
    rw [hrun]
    rfl
  · unfold start_processing
    rw [hrun]
    rfl
  · rw [hsdr]
    have hmap : (List.range k).map (readBlock none) = List.replicate k ReadResult.err := by
      rw [show readBlock none = fun _ => ReadResult.err from rfl]
      rw [List.map_const']
      rw [List.length_range]
    rw [hmap]
    obtain ⟨k2, rfl⟩ : ∃ k2, k = k2 + 1 := ⟨k - 1, by omega⟩
    rw [List.replicate_succ]
    have hstep : loop_step threshold sf st ReadResult.err =
        { st with running := false, errors := st.errors + 1 } := by
      unfold loop_step
      rw [hst]
      rfl
    show processing_loop threshold sf _ (loop_step threshold sf st ReadResult.err) = _
    rw [hstep]
    exact processing_loop_stopped _ _ _ _ rfl

/-- Witness for C10 at a concrete engine and a two-iteration run. -/
theorem C10_witness :
    (start_processing ⟨false, some true, none, []⟩).1 = true ∧
    (start_processing ⟨false, some true, none, []⟩).2.running = true ∧
    processing_loop 1 (fun _ => false) ((List.range 2).map (readBlock none))
      ⟨[], [], true, 0⟩ = ⟨[], [], false, 1⟩ :=
  C10_start_without_source ⟨false, some true, none, []⟩ rfl rfl 1 (fun _ => false)
    ⟨[], [], true, 0⟩ 2 (by decide) rfl

/-- The code formula `min(max((mean - threshold)/abs(threshold), 0), 1)`
coincides with the spec formula `clamp((mean - threshold)/|threshold|, 0, 1)`. -/
theorem calculate_confidence_eq_spec (pp : List ℚ) (t : ℚ) :
    calculate_confidence pp t = specConfidenceClamp (npMean pp) t := by
  unfold calculate_confidence specConfidenceClamp
  rw [max_comm, min_comm]

theorem calculate_confidence_bounds (pp : List ℚ) (t : ℚ) :
    0 ≤ calculate_confidence pp t ∧ calculate_confidence pp t ≤ 1 := by
  unfold calculate_confidence
  exact ⟨le_min (le_max_right _ 0) zero_le_one, min_le_right _ 1⟩

/-- C6: whenever an analysis pass produces a detection and the
configured threshold is nonzero, its confidence equals
`clamp((mean(accepted peak powers) - threshold) / |threshold|, 0, 1)`
and lies in the interval `[0, 1]`. -/
theorem C6_confidence_formula (power freqs : List ℚ) (threshold : ℚ)
    (store store2 : List Detection) (d : Detection)
    (ht : threshold ≠ 0)
    (h : analyze_signal power freqs threshold store = (some d, store2)) :
    d.confidence = specConfidenceClamp (npMean d.powers) threshold ∧
    0 ≤ d.confidence ∧ d.confidence ≤ 1 := by
  unfold analyze_signal at h
  by_cases hp : (find_peaks power threshold 20).length > 0
  · rw [if_pos hp] at h
    simp only [Prod.mk.injEq] at h
    obtain ⟨h1, h2⟩ := h
    have hd : _ = d := Option.some.inj h1
    subst hd
    exact ⟨calculate_confidence_eq_spec _ _, calculate_confidence_bounds _ _⟩
  · rw [if_neg hp] at h
    exact absurd h (by simp)

/-- Witness for C6 at a concrete detecting pass. -/
theorem C6_witness :
    (⟨[20], [5], 1⟩ : Detection).confidence =
      specConfidenceClamp (npMean (⟨[20], [5], 1⟩ : Detection).powers) 1 ∧
    0 ≤ (⟨[20], [5], 1⟩ : Detection).confidence ∧
    (⟨[20], [5], 1⟩ : Detection).confidence ≤ 1 :=
  C6_confidence_formula [0, 5, 0] [10, 20, 30] 1 [] [⟨[20], [5], 1⟩] ⟨[20], [5], 1⟩
    (by decide) (by with_unfolding_all decide)

/-- C7 counterexample: the claim states a strictly larger mean peak
power always yields a strictly larger confidence.  With threshold 10,
mean powers 30 and 40 (both above threshold) saturate the clamp: both
confidences equal 1, so the increase is not strict. -/
theorem C7_counterexample :
    (10 : ℚ) < npMean [30] ∧ npMean [30] < npMean [40] ∧
    calculate_confidence [30] 10 = calculate_confidence [40] 10 ∧
    calculate_confidence [30] 10 = 1 := by
  with_unfolding_all decide

/-- C7 amended: with the threshold fixed and nonzero, confidence is
strictly increasing in the mean accepted peak power as long as the
clamp does not saturate: whenever the larger mean exceeds the
threshold and the smaller mean is below `threshold + |threshold|`
(where the clamp reaches 1), a strictly larger mean yields a strictly
larger confidence. -/
theorem C7_amended_strict_mono (pp1 pp2 : List ℚ) (t : ℚ) (ht : t ≠ 0)
    (hm : npMean pp1 < npMean pp2) (h2 : t < npMean pp2)
    (h1 : npMean pp1 < t + |t|) :
    calculate_confidence pp1 t < calculate_confidence pp2 t := by
  have habs : 0 < |t| := abs_pos.mpr ht
  unfold calculate_confidence
  have ha12 : (npMean pp1 - t) / |t| < (npMean pp2 - t) / |t| := by
    gcongr
  have ha2pos : 0 < (npMean pp2 - t) / |t| := div_pos (by linarith) habs
  have ha1lt1 : (npMean pp1 - t) / |t| < 1 := (div_lt_one habs).mpr (by linarith)
  calc min (max ((npMean pp1 - t) / |t|) 0) 1
      = max ((npMean pp1 - t) / |t|) 0 := min_eq_left (max_lt ha1lt1 one_pos).le
    _ < min ((npMean pp2 - t) / |t|) 1 := lt_min (max_lt ha12 ha2pos) (max_lt ha1lt1 one_pos)
    _ = min (max ((npMean pp2 - t) / |t|) 0) 1 := by rw [max_eq_left ha2pos.le]

/-- Witness for C7 amended in the unsaturated region. -/
theorem C7_amended_witness :
    calculate_confidence [15] 10 < calculate_confidence [18] 10 :=
  C7_amended_strict_mono [15] [18] 10 (by decide) (by with_unfolding_all decide)
    (by with_unfolding_all decide) (by with_unfolding_all decide)

/-- C5 counterexample: the claim states the magnitude is clamped to a
positive epsilon before the logarithm so every power value is finite.
On the all-zero sample block every FFT bin has zero magnitude and the
power of bin 0 is `-∞` (numpy `-inf`), not a finite dB number: no
clamp exists in the code. -/
theorem C5_counterexample :
    compute_power (fun _ => 0) (fun _ => 1) 4 0 = (⊥ : EReal) := by
  unfold compute_power
  have hd : dft (fun j => (fun _ => (0 : ℂ)) j * (fun _ => (1 : ℂ)) j) 4 0 = 0 := by
    unfold dft
    simp
  rw [hd]
  simp [npPower]

/-- C5 amended: computing the power spectrum never raises (the dB map
is total, mirroring numpy returning `-inf` with a warning), but no
epsilon clamp is applied: a power value is `-∞` exactly when the
magnitude of its bin is zero, and a finite dB number otherwise. -/
theorem C5_amended_no_clamp (samples window : ℕ → ℂ) (n k : ℕ) :
    compute_power samples window n k ≠ ⊤ ∧
    (compute_power samples window n k = ⊥ ↔
      Complex.abs (dft (fun j => samples j * window j) n k) = 0) := by
  unfold compute_power npPower
  split
  next h => exact ⟨bot_ne_top, iff_of_true rfl h⟩
  next h => exact ⟨EReal.coe_ne_top _, iff_of_false (EReal.coe_ne_bot _) h⟩

end FinderMiner

